import Mathlib

/-!
Verification of the process-communication core of the `rish` Tk binding
(`src/wish.rs`, plus the `TkTopLevel` handle of `src/toplevel.rs`).

The Rust code is shallowly embedded: string manipulation is modelled on
`List Char` (Rust byte indices coincide with character indices on the
ASCII data handled here), the process-wide `HashMap` callback stores are
modelled as association lists observed only through `lookup` / `insert` /
`remove` / `contains`, the `i64` id counter uses two's-complement wrapping
arithmetic on `Int`, and every Rust `panic!` / out-of-bounds index is an
explicit `none` / `Option.none` outcome.  Registered Rust closures are
modelled by an identity tag together with the `add_callback*`
registrations they perform in their own store when invoked.
-/

/-- Boolean test that `p` is a prefix of `l` (Rust `str::starts_with`). -/
def isPre : List Char → List Char → Bool
  | [], _ => true
  | _ :: _, [] => false
  | a :: as_, b :: bs => a = b && isPre as_ bs

/-- Boolean substring test on char lists (Rust `str::contains`). -/
def hasSub (hay needle : List Char) : Bool :=
  match hay with
  | [] => needle.isEmpty
  | _ :: t => isPre needle hay || hasSub t needle

/-- Rust `s.contains(pat)` on strings. -/
def containsStr (s pat : String) : Bool := hasSub s.data pat.data

/-- Index of the first occurrence of character `c` (Rust `str::find(char)`). -/
def findCh (c : Char) : List Char → Option Nat
  | [] => none
  | h :: t => if h = c then some 0 else (findCh c t).map (· + 1)

/-- Index of the first `'\n'` or `'\r'` (Rust `str::find(['\n', '\r'])`). -/
def findNL : List Char → Option Nat
  | [] => none
  | h :: t => if h = '\n' ∨ h = '\r' then some 0 else (findNL t).map (· + 1)

/-- Strip leading and trailing whitespace (Rust `str::trim`). -/
def trimB (l : List Char) : List Char :=
  ((l.dropWhile Char.isWhitespace).reverse.dropWhile Char.isWhitespace).reverse

/-- Rust `str::trim` packaged on `String`. -/
def trimStr (s : String) : String := ⟨trimB s.data⟩

/-- Helper for `words`: `cur` holds the current run of non-whitespace
characters, in reverse order. -/
def wordsAux (l : List Char) (cur : List Char) : List (List Char) :=
  match l with
  | [] => if cur = [] then [] else [cur.reverse]
  | c :: cs =>
    if c.isWhitespace then
      if cur = [] then wordsAux cs [] else cur.reverse :: wordsAux cs []
    else wordsAux cs (c :: cur)

/-- Rust `str::split_whitespace`: maximal runs of non-whitespace characters. -/
def words (l : List Char) : List (List Char) := wordsAux l []

/-- Rust `str::split(sep)` for a single-character separator: keeps empty
pieces, always returns at least one piece. -/
def splitOnChar (c : Char) : List Char → List (List Char)
  | [] => [[]]
  | h :: t =>
    match splitOnChar c t with
    | [] => [[h]]
    | x :: xs => if h = c then [] :: x :: xs else (h :: x) :: xs

/-- Association-list lookup, the observable face of `HashMap::get`. -/
def lookupA {α : Type} (k : String) : List (String × α) → Option α
  | [] => none
  | (k', v) :: t => if k' = k then some v else lookupA k t

/-- Drop every binding of key `k` (the removal half of `HashMap::remove_entry`). -/
def eraseA {α : Type} (k : String) (m : List (String × α)) : List (String × α) :=
  m.filter (fun p => p.1 ≠ k)

/-- `HashMap::insert`: the new binding shadows (replaces) any previous one. -/
def insertA {α : Type} (k : String) (v : α) (m : List (String × α)) :
    List (String × α) :=
  (k, v) :: eraseA k m

/-- `HashMap::contains_key`. -/
def containsA {α : Type} (k : String) (m : List (String × α)) : Bool :=
  (lookupA k m).isSome

/-- The decimal digit characters produced by Rust's integer formatter. -/
def digitChar : Nat → Char
  | 0 => '0' | 1 => '1' | 2 => '2' | 3 => '3' | 4 => '4'
  | 5 => '5' | 6 => '6' | 7 => '7' | 8 => '8' | 9 => '9'
  | _ => '*'

/-- Decimal digit string of a natural number, most significant first
(Rust `format!("{}", n)`). -/
def natDigits (n : Nat) : List Char :=
  if _h : n < 10 then [digitChar n]
  else natDigits (n / 10) ++ [digitChar (n % 10)]
  termination_by n
  decreasing_by exact Nat.div_lt_self (by omega) (by omega)

/-- Decimal rendering of a natural number as a `String`. -/
def natFmt (n : Nat) : String := ⟨natDigits n⟩

/-- Decimal rendering of an `i64` value (Rust `format!("{}", nid)`). -/
def intFmt (i : Int) : String :=
  if i < 0 then "-" ++ natFmt (-i).toNat else natFmt i.toNat

/-- Two's-complement wrap-around of an `i64` (release-mode Rust `+=`). -/
def wrapI64 (n : Int) : Int := (n + 2 ^ 63) % 2 ^ 64 - 2 ^ 63

/-- Value of a non-empty all-digit character list; `none` otherwise. -/
def digitsToNat (l : List Char) : Option Nat :=
  if l ≠ [] ∧ l.all Char.isDigit then
    some (l.foldl (fun a c => a * 10 + (c.toNat - 48)) 0)
  else none

/-- Rust `str::parse::<i64>()`: optional sign, one or more ASCII digits,
nothing else, and the value must fit in an `i64`. -/
def parseI64 (l : List Char) : Option Int :=
  match l with
  | '+' :: rest =>
    (digitsToNat rest).bind fun n =>
      if (n : Int) ≤ 2 ^ 63 - 1 then some (n : Int) else none
  | '-' :: rest =>
    (digitsToNat rest).bind fun n =>
      if (n : Int) ≤ 2 ^ 63 then some (-(n : Int)) else none
  | rest =>
    (digitsToNat rest).bind fun n =>
      if (n : Int) ≤ 2 ^ 63 - 1 then some (n : Int) else none

/-- Rust `str::parse::<u64>()`: optional `'+'`, digits, value below `2^64`. -/
def parseU64 (l : List Char) : Option Nat :=
  match l with
  | '+' :: rest =>
    (digitsToNat rest).bind fun n => if n ≤ 2 ^ 64 - 1 then some n else none
  | rest =>
    (digitsToNat rest).bind fun n => if n ≤ 2 ^ 64 - 1 then some n else none

/-- `widget::TkEvent` (fields exactly as constructed in the `cb1e` branch of
`mainloop` in `src/wish.rs`: six `i64` coordinates/dimensions, a `u64` key
code, the key symbol string, and a `u64` mouse button). -/
structure TkEvent where
  x : Int
  y : Int
  root_x : Int
  root_y : Int
  height : Int
  width : Int
  key_code : Nat
  key_symbol : String
  mouse_button : Nat
deriving DecidableEq

/-- Modelled from the spec: the font record (`font::TkFont`, whose source is
not under `src/`); only its identity matters to the dispatch core, so it is
modelled as an opaque description. -/
structure TkFont where
  description : String
deriving DecidableEq

/-- `toplevel::TkTopLevel` (`src/toplevel.rs`): the root-window handle. -/
structure TkTopLevel where
  id : String
deriving DecidableEq

/-- A registered `Callback0` closure: an identity tag plus the
`add_callback0` registrations it performs in its store when invoked. -/
inductive Closure0 where
  | mk (tag : Nat) (fx : List (String × Closure0))

/-- The registrations performed by a `Closure0` when it runs. -/
def Closure0.fx : Closure0 → List (String × Closure0)
  | .mk _ f => f

/-- A registered `Callback1Bool` closure: an identity tag plus the
`add_callback1_bool` registrations it performs, depending on its argument. -/
inductive ClosureB where
  | mk (tag : Nat) (fx : Bool → List (String × ClosureB))

/-- The registrations performed by a `ClosureB` on a given argument. -/
def ClosureB.fx : ClosureB → Bool → List (String × ClosureB)
  | .mk _ f => f

/-- A registered `Callback1Event` closure. -/
inductive ClosureE where
  | mk (tag : Nat) (fx : TkEvent → List (String × ClosureE))

/-- The registrations performed by a `ClosureE` on a given event. -/
def ClosureE.fx : ClosureE → TkEvent → List (String × ClosureE)
  | .mk _ f => f

/-- A registered `Callback1Float` closure. -/
inductive ClosureF where
  | mk (tag : Nat) (fx : Float → List (String × ClosureF))

/-- The registrations performed by a `ClosureF` on a given argument. -/
def ClosureF.fx : ClosureF → Float → List (String × ClosureF)
  | .mk _ f => f

/-- A registered `Callback1Font` closure. -/
inductive ClosureFont where
  | mk (tag : Nat) (fx : TkFont → List (String × ClosureFont))

/-- The registrations performed by a `ClosureFont` on a given font. -/
def ClosureFont.fx : ClosureFont → TkFont → List (String × ClosureFont)
  | .mk _ f => f

/-- Apply a list of `add_callback*` registrations to a store, in order. -/
def applyFx {α : Type} (fx : List (String × α)) (m : List (String × α)) :
    List (String × α) :=
  fx.foldl (fun acc p => insertA p.1 p.2 acc) m

/-- The five process-wide callback stores of `src/wish.rs`
(`CALLBACKS0`, `CALLBACKS1BOOL`, `CALLBACKS1EVENT`, `CALLBACKS1FLOAT`,
`CALLBACKS1FONT`). -/
structure Stores where
  cb0 : List (String × Closure0)
  cbB : List (String × ClosureB)
  cbE : List (String × ClosureE)
  cbF : List (String × ClosureF)
  cbFont : List (String × ClosureFont)

/-- `add_callback0`. -/
def add_callback0 (wid : String) (c : Closure0) (m : List (String × Closure0)) :
    List (String × Closure0) :=
  insertA wid c m

/-- `eval_callback0`: remove the entry, run it, and re-register the original
closure unless the key contains `"after"` or the invocation left some entry
under the key.  Also returns the list of closures invoked. -/
def eval_callback0 (wid : String) (m : List (String × Closure0)) :
    List (String × Closure0) × List Closure0 :=
  match lookupA wid m with
  | none => (m, [])
  | some command =>
    let m1 := eraseA wid m
    let m2 := applyFx command.fx m1
    (if ¬ containsStr wid "after" = true ∧ ¬ containsA wid m2 = true then
       add_callback0 wid command m2
     else m2,
     [command])

/-- `add_callback1_bool`. -/
def add_callback1_bool (wid : String) (c : ClosureB)
    (m : List (String × ClosureB)) : List (String × ClosureB) :=
  insertA wid c m

/-- `eval_callback1_bool`: remove the entry, run it on `value`, re-register
the original closure unless the invocation left some entry under the key. -/
def eval_callback1_bool (wid : String) (value : Bool)
    (m : List (String × ClosureB)) :
    List (String × ClosureB) × List (ClosureB × Bool) :=
  match lookupA wid m with
  | none => (m, [])
  | some command =>
    let m1 := eraseA wid m
    let m2 := applyFx (command.fx value) m1
    (if ¬ containsA wid m2 = true then add_callback1_bool wid command m2
     else m2,
     [(command, value)])

/-- `add_callback1_event`. -/
def add_callback1_event (wid : String) (c : ClosureE)
    (m : List (String × ClosureE)) : List (String × ClosureE) :=
  insertA wid c m

/-- `eval_callback1_event`. -/
def eval_callback1_event (wid : String) (value : TkEvent)
    (m : List (String × ClosureE)) :
    List (String × ClosureE) × List (ClosureE × TkEvent) :=
  match lookupA wid m with
  | none => (m, [])
  | some command =>
    let m1 := eraseA wid m
    let m2 := applyFx (command.fx value) m1
    (if ¬ containsA wid m2 = true then add_callback1_event wid command m2
     else m2,
     [(command, value)])

/-- `add_callback1_float`. -/
def add_callback1_float (wid : String) (c : ClosureF)
    (m : List (String × ClosureF)) : List (String × ClosureF) :=
  insertA wid c m

/-- `eval_callback1_float`. -/
def eval_callback1_float (wid : String) (value : Float)
    (m : List (String × ClosureF)) :
    List (String × ClosureF) × List (ClosureF × Float) :=
  match lookupA wid m with
  | none => (m, [])
  | some command =>
    let m1 := eraseA wid m
    let m2 := applyFx (command.fx value) m1
    (if ¬ containsA wid m2 = true then add_callback1_float wid command m2
     else m2,
     [(command, value)])

/-- `add_callback1_font`. -/
def add_callback1_font (wid : String) (c : ClosureFont)
    (m : List (String × ClosureFont)) : List (String × ClosureFont) :=
  insertA wid c m

/-- `eval_callback1_font`. -/
def eval_callback1_font (wid : String) (value : TkFont)
    (m : List (String × ClosureFont)) :
    List (String × ClosureFont) × List (ClosureFont × TkFont) :=
  match lookupA wid m with
  | none => (m, [])
  | some command =>
    let m1 := eraseA wid m
    let m2 := applyFx (command.fx value) m1
    (if ¬ containsA wid m2 = true then add_callback1_font wid command m2
     else m2,
     [(command, value)])

/-- `next_wid`: increment the shared counter (an `i64`, hence the wrap) and
format the child identifier relative to `parent`.  Returns the new counter. -/
def next_wid (parent : String) (nid : Int) : String × Int :=
  let nid' := wrapI64 (nid + 1)
  (if parent = "." then ".r" ++ intFmt nid' else parent ++ ".r" ++ intFmt nid',
   nid')

/-- `next_var`: increment the same shared counter and format a variable name. -/
def next_var (nid : Int) : String × Int :=
  let nid' := wrapI64 (nid + 1)
  ("::var" ++ intFmt nid', nid')

/-- One request to the identifier allocator: a widget id for a given parent,
or a variable name. -/
inductive IdOp where
  | wid (parent : String)
  | var
deriving DecidableEq

/-- Run a sequence of allocator requests against the shared counter,
collecting the returned names. -/
def runIds (ops : List IdOp) (nid : Int) : List String × Int :=
  match ops with
  | [] => ([], nid)
  | op :: rest =>
    let r :=
      match op with
      | .wid parent => next_wid parent nid
      | .var => next_var nid
    let rr := runIds rest r.2
    (r.1 :: rr.1, rr.2)

/-- One invocation performed by the dispatcher, tagged by store. -/
inductive Invoked where
  | i0 (c : Closure0)
  | ib (c : ClosureB) (v : Bool)
  | ie (c : ClosureE) (v : TkEvent)
  | ifl (c : ClosureF) (v : Float)
  | ifo (c : ClosureFont) (v : TkFont)

/-- Result of one `mainloop` iteration: the new stores, how many times
`kill_wish` ran, whether the loop returned to its caller, and the closure
invocations dispatched. -/
structure StepRes where
  st : Stores
  kills : Nat
  stopped : Bool
  log : List Invoked

/-- One iteration of `mainloop` on a decoded input chunk (`src/wish.rs`,
lines 396-465).  `fontP` stands for `str::parse::<font::TkFont>` and
`f64P` for `str::parse::<f64>`, both outside the dispatch core; `none`
models a Rust panic (an out-of-range `parts[i]` index or slice). -/
def mainloopStep (fontP : List Char → Option TkFont)
    (f64P : List Char → Option Float) (input : List Char) (st : Stores) :
    Option StepRes :=
  if isPre "clicked".data input then
    match findNL input with
    | none => some ⟨st, 0, false, []⟩
    | some n =>
      if n < 8 then none
      else
        let widget : String := ⟨(input.drop 8).take (n - 8)⟩
        let r := eval_callback0 widget st.cb0
        some ⟨{ st with cb0 := r.1 }, 0, false, r.2.map .i0⟩
  else if isPre "cb1b".data input then
    match splitOnChar '-' input with
    | _ :: p1 :: p2 :: _ =>
      let widget : String := ⟨trimB p1⟩
      let value : String := ⟨trimB p2⟩
      let r := eval_callback1_bool widget (value = "1") st.cbB
      some ⟨{ st with cbB := r.1 }, 0, false, r.2.map fun p => .ib p.1 p.2⟩
    | _ => none
  else if isPre "cb1e".data input then
    match splitOnChar ':' input with
    | _ :: p1 :: p2 :: p3 :: p4 :: p5 :: p6 :: p7 :: p8 :: p9 :: p10 :: _ =>
      let widget_pattern : String := ⟨trimB p1⟩
      let event : TkEvent :=
        { x := (parseI64 p2).getD 0
          y := (parseI64 p3).getD 0
          root_x := (parseI64 p4).getD 0
          root_y := (parseI64 p5).getD 0
          height := (parseI64 p6).getD 0
          width := (parseI64 p7).getD 0
          key_code := (parseU64 p8).getD 0
          key_symbol := ⟨p9⟩
          mouse_button := (parseU64 p10).getD 0 }
      let r := eval_callback1_event widget_pattern event st.cbE
      some ⟨{ st with cbE := r.1 }, 0, false, r.2.map fun p => .ie p.1 p.2⟩
    | _ => none
  else if isPre "cb1f".data input then
    match splitOnChar '-' input with
    | _ :: p1 :: p2 :: _ =>
      let widget : String := ⟨trimB p1⟩
      let value : Float := (f64P (trimB p2)).getD 0.0
      let r := eval_callback1_float widget value st.cbF
      some ⟨{ st with cbF := r.1 }, 0, false, r.2.map fun p => .ifl p.1 p.2⟩
    | _ => none
  else if isPre "font".data input then
    let fontText := trimB (input.drop 4)
    match fontP fontText with
    | some font =>
      let r := eval_callback1_font "font" font st.cbFont
      some ⟨{ st with cbFont := r.1 }, 0, false, r.2.map fun p => .ifo p.1 p.2⟩
    | none => some ⟨st, 0, false, []⟩
  else if isPre "exit".data input then
    some ⟨st, 1, true, []⟩
  else
    some ⟨st, 0, false, []⟩

/-- The `mainloop` read loop over a sequence of decoded input chunks: runs
until the `exit` branch returns (`stopped = true`), the input is exhausted
(`stopped = false`), or an iteration panics (`none`).  Accumulates the
number of `kill_wish` calls. -/
def mainloopRun (fontP : List Char → Option TkFont)
    (f64P : List Char → Option Float) (chunks : List (List Char))
    (st : Stores) : Option (Stores × Nat × Bool) :=
  match chunks with
  | [] => some (st, 0, false)
  | c :: rest =>
    match mainloopStep fontP f64P c st with
    | none => none
    | some r =>
      if r.stopped then some (r.st, r.kills, true)
      else
        (mainloopRun fontP f64P rest r.st).map fun q =>
          (q.1, r.kills + q.2.1, q.2.2)

/-- `tell_wish`: enqueue the message and then a `"\n"` on the outbound
command channel (two `send` calls). -/
def tell_wish (msg : String) (chan : List String) : List String :=
  chan ++ [msg, "\n"]

/-- `ask_wish`: send the message, then perform one blocking read.  The read
outcome is `readRes`: `none` is a failed read, `some none` a chunk that is
not valid UTF-8, `some (some s)` a chunk decoded to `s`.  The result is the
trimmed text, or `Except.error` for the terminal `panic!`. -/
def ask_wish (msg : String) (readRes : Option (Option String))
    (chan : List String) : List String × Except String String :=
  let chan' := tell_wish msg chan
  match readRes with
  | some (some s) => (chan', .ok (trimStr s))
  | _ => (chan', .error "Eval-wish failed to get a result")

/-- The four set-once process-wide globals of `src/wish.rs`: whether
`TRACE_WISH`, `WISH`, `OUTPUT` and `SENDER` have been set. -/
structure GlobalsSt where
  traceSet : Bool
  wishSet : Bool
  outputSet : Bool
  senderSet : Bool
deriving DecidableEq

/-- `start_tk_connection`: spawn the child (`spawnOk` models whether the
executable could be launched), claim the `WISH`, `OUTPUT` and `SENDER`
globals in that order, perform the setup writes, and return the root
handle.  The outer `none` models the `SENDER.set(..).expect(..)` panic. -/
def start_tk_connection (wish : String) (spawnOk : Bool) (g : GlobalsSt) :
    GlobalsSt × Option (Except String TkTopLevel) :=
  let errMsg := "Do not start " ++ wish ++ " twice"
  if spawnOk then
    if g.wishSet then (g, some (.error errMsg))
    else
      let g1 := { g with wishSet := true }
      if g1.outputSet then (g1, some (.error errMsg))
      else
        let g2 := { g1 with outputSet := true }
        if g2.senderSet then (g2, none)
        else
          let g3 := { g2 with senderSet := true }
          (g3, some (.ok ⟨"."⟩))
  else
    (g, some (.error ("Failed to start " ++ wish ++ " process")))

/-- `start_with`: set the `TRACE_WISH` guard to `false`; if it was already
set, fail without touching anything else. -/
def start_with (wish : String) (spawnOk : Bool) (g : GlobalsSt) :
    GlobalsSt × Option (Except String TkTopLevel) :=
  if g.traceSet then (g, some (.error "Failed to set trace option"))
  else start_tk_connection wish spawnOk { g with traceSet := true }

/-- `trace_with`: identical guard, but sets the trace flag to `true`. -/
def trace_with (wish : String) (spawnOk : Bool) (g : GlobalsSt) :
    GlobalsSt × Option (Except String TkTopLevel) :=
  if g.traceSet then (g, some (.error "Failed to set trace option"))
  else start_tk_connection wish spawnOk { g with traceSet := true }

/-- `start_wish`: `start_with("wish")`. -/
def start_wish (spawnOk : Bool) (g : GlobalsSt) :
    GlobalsSt × Option (Except String TkTopLevel) :=
  start_with "wish" spawnOk g

/-- The loop body of `split_items`, structurally recursive on a fuel bound
(`splitItemsFuel_irrel` below shows any fuel above the remaining length
gives the same answer, so the fuel never cuts the Rust loop short).
`none` models the Rust slice panic `remaining[start+1..end]` with
`end < start + 1`. -/
def split_items_aux : Nat → List Char → Option (List (List Char))
  | 0, _ => none
  | fuel + 1, remaining =>
    if remaining.isEmpty then some []
    else
      match findCh '\x7b' remaining with
      | none => some (words remaining)
      | some start =>
        let ws := words (remaining.take start)
        match findCh '\x7d' remaining with
        | none => some ws
        | some e =>
          if e < start + 1 then none
          else
            let item := (remaining.drop (start + 1)).take (e - (start + 1))
            (split_items_aux fuel (trimB (remaining.drop (e + 1)))).map
              fun rest => ws ++ item :: rest

/-- `split_items` (`src/wish.rs`, lines 581-609). -/
def split_items (text : String) : Option (List String) :=
  (split_items_aux (text.data.length + 1) (trimB text.data)).map
    fun items => items.map fun l => (⟨l⟩ : String)

/-- A no-argument closure that performs no registrations. -/
def noop0 : Closure0 := .mk 0 []

/-- A no-argument closure (distinct identity) that performs no registrations. -/
def other0 : Closure0 := .mk 1 []

/-- A no-argument closure that re-registers `other0` under key `".b1"`. -/
def rebind0 : Closure0 := .mk 2 [(".b1", other0)]

/-- A boolean closure that performs no registrations. -/
def noopB : ClosureB := .mk 0 (fun _ => [])

/-- An event closure that performs no registrations. -/
def noopE : ClosureE := .mk 0 (fun _ => [])

/-- A float closure that performs no registrations. -/
def noopF : ClosureF := .mk 0 (fun _ => [])

/-- A font closure that performs no registrations. -/
def noopFont : ClosureFont := .mk 0 (fun _ => [])

/-- Empty callback stores. -/
def emptyStores : Stores := ⟨[], [], [], [], []⟩


/-- The name returned for one allocator request when the shared counter
hands out the value `k` (the body of `next_wid` / `next_var` after the
increment). -/
def renderOp (op : IdOp) (k : Int) : String :=
  match op with
  | .wid parent =>
    if parent = "." then ".r" ++ intFmt k else parent ++ ".r" ++ intFmt k
  | .var => "::var" ++ intFmt k

theorem lookupA_insertA_self {α : Type} (k : String) (v : α)
    (m : List (String × α)) : lookupA k (insertA k v m) = some v := by
  simp [insertA, lookupA]

theorem trimB_length_le (l : List Char) : (trimB l).length ≤ l.length := by
  unfold trimB
  have h1 := (List.dropWhile_sublist (l := l) Char.isWhitespace).length_le
  have h2 := (List.dropWhile_sublist
    (l := (l.dropWhile Char.isWhitespace).reverse) Char.isWhitespace).length_le
  simp only [List.length_reverse] at *
  omega

theorem trimB_subset (l : List Char) : trimB l ⊆ l := by
  unfold trimB
  intro a ha
  simp only [List.mem_reverse] at ha
  have h1 := (List.dropWhile_sublist
    (l := (l.dropWhile Char.isWhitespace).reverse) Char.isWhitespace).subset ha
  simp only [List.mem_reverse] at h1
  exact (List.dropWhile_sublist (l := l) Char.isWhitespace).subset h1

theorem mem_dropWhile_of {p : Char → Bool} {a : Char} {l : List Char}
    (ha : a ∈ l) (hp : p a = false) : a ∈ l.dropWhile p := by
  induction l with
  | nil => cases ha
  | cons h t ih =>
    rw [List.dropWhile_cons]
    by_cases hph : p h = true
    · rw [if_pos hph]
      rcases List.mem_cons.mp ha with rfl | hmem
      · rw [hp] at hph; cases hph
      · exact ih hmem
    · rw [if_neg (by simp [hph])]
      exact ha

theorem mem_trimB_of {a : Char} {l : List Char} (ha : a ∈ l)
    (hw : a.isWhitespace = false) : a ∈ trimB l := by
  unfold trimB
  rw [List.mem_reverse]
  exact mem_dropWhile_of (by rw [List.mem_reverse]; exact mem_dropWhile_of ha hw) hw

theorem findCh_isSome {c : Char} {l : List Char} (h : c ∈ l) :
    (findCh c l).isSome = true := by
  induction l with
  | nil => cases h
  | cons h' t ih =>
    rw [findCh]
    by_cases he : h' = c
    · rw [if_pos he]; rfl
    · rw [if_neg he]
      rcases List.mem_cons.mp h with rfl | hmem
      · exact absurd rfl he
      · cases hfind : findCh c t with
        | none => rw [hfind] at ih; cases (ih hmem)
        | some k => rfl

theorem findCh_eq_none {c : Char} {l : List Char} (h : c ∉ l) :
    findCh c l = none := by
  induction l with
  | nil => rfl
  | cons h' t ih =>
    rw [findCh]
    rw [if_neg (fun he : h' = c => h (he ▸ List.mem_cons_self h' t))]
    rw [ih (fun hm => h (List.mem_cons_of_mem h' hm))]
    rfl

theorem split_items_aux_fuel_irrel :
    ∀ (f1 : Nat), ∀ (f2 : Nat) (rem : List Char), rem.length < f1 →
      rem.length < f2 → split_items_aux f1 rem = split_items_aux f2 rem := by
  intro f1
  induction f1 with
  | zero => intro f2 rem h1 _; omega
  | succ f1' ih =>
    intro f2 rem h1 h2
    cases f2 with
    | zero => omega
    | succ f2' =>
      rw [split_items_aux, split_items_aux]
      by_cases hemp : rem.isEmpty = true
      · rw [if_pos hemp, if_pos hemp]
      · rw [if_neg hemp, if_neg hemp]
        cases hfo : findCh '\x7b' rem with
        | none => rfl
        | some start =>
          cases hfc : findCh '\x7d' rem with
          | none => rfl
          | some e =>
            dsimp only
            by_cases he : e < start + 1
            · rw [if_pos he, if_pos he]
            · rw [if_neg he, if_neg he]
              have hne : rem ≠ [] := fun hn => by
                rw [hn] at hemp; exact hemp rfl
              have hlen : 0 < rem.length := List.length_pos.mpr hne
              have hdrop : (rem.drop (e + 1)).length ≤ rem.length - 1 := by
                rw [List.length_drop]; omega
              have htrim := trimB_length_le (rem.drop (e + 1))
              rw [ih f2' (trimB (rem.drop (e + 1))) (by omega) (by omega)]

/-- Claim C9: `split_items` satisfies all five enumerated cases: `""` yields
the empty sequence; `"abc"` yields `["abc"]`; `"  abc  def  "` yields
`["abc","def"]`; `"{abc def}"` yields the single item `["abc def"]`; and
`"{abc def} xy_z {another}"` yields `["abc def","xy_z","another"]`. -/
theorem split_items_cases :
    split_items "" = some [] ∧
    split_items "abc" = some ["abc"] ∧
    split_items "  abc  def  " = some ["abc", "def"] ∧
    split_items "\x7babc def\x7d" = some ["abc def"] ∧
    split_items "\x7babc def\x7d xy_z \x7banother\x7d" =
      some ["abc def", "xy_z", "another"] :=
  ⟨by decide, by decide, by decide, by decide, by decide⟩

/-- Claim C10 (counterexample): on `"a} {b"` — an input containing an opening
brace with no closing brace after it — `split_items` does not return the
words before the brace (`["a}"]`); it hits the Rust slice panic
`remaining[start+1..end]` with `end < start + 1` and returns nothing. -/
theorem split_items_stray_close_panics :
    split_items "a\x7d \x7bb" = none ∧
    split_items "a\x7d \x7bb" ≠ some ["a\x7d"] :=
  ⟨by decide, by decide⟩

/-- Claim C10 (amended): for every input containing an opening brace `'{'`
and no closing brace `'}'` anywhere, `split_items` returns only the
whitespace-separated words occurring before the first opening brace and
silently drops the brace and everything after it. -/
theorem split_items_unmatched_brace (text : String)
    (hopen : '\x7b' ∈ text.data) (hclose : '\x7d' ∉ text.data) :
    ∃ start, findCh '\x7b' (trimB text.data) = some start ∧
      split_items text =
        some ((words ((trimB text.data).take start)).map
          fun l => (⟨l⟩ : String)) := by
  have hopen' : '\x7b' ∈ trimB text.data := mem_trimB_of hopen (by decide)
  obtain ⟨start, hs⟩ := Option.isSome_iff_exists.mp (findCh_isSome hopen')
  refine ⟨start, hs, ?_⟩
  have hclose' : findCh '\x7d' (trimB text.data) = none :=
    findCh_eq_none fun hm => hclose (trimB_subset _ hm)
  have hne : trimB text.data ≠ [] := fun hn => by rw [hn] at hopen'; cases hopen'
  have hlt : (trimB text.data).length < text.data.length + 1 :=
    Nat.lt_succ_of_le (trimB_length_le _)
  unfold split_items
  rw [split_items_aux, if_neg (by simp [List.isEmpty_iff, hne]), hs, hclose']
  rfl

/-- Witness for `split_items_unmatched_brace` at `"xy {abc"`. -/
theorem split_items_unmatched_brace_witness :
    ('\x7b' ∈ "xy \x7babc".data ∧ '\x7d' ∉ "xy \x7babc".data) ∧
    (∃ start, findCh '\x7b' (trimB "xy \x7babc".data) = some start ∧
      split_items "xy \x7babc" =
        some ((words ((trimB "xy \x7babc".data).take start)).map
          fun l => (⟨l⟩ : String))) ∧
    split_items "xy \x7babc" = some ["xy"] :=
  ⟨⟨by decide, by decide⟩,
   split_items_unmatched_brace "xy \x7babc" (by decide) (by decide),
   by decide⟩

/-- Claim C1 (counterexample): for the key `"after"` (which contains the
one-shot marker) and a closure that registers nothing, a dispatched click
invokes the closure once but does NOT leave it registered, contradicting
the claim's unconditional re-arming. -/
theorem eval_callback0_after_key_dropped :
    (eval_callback0 "after" (add_callback0 "after" noop0 [])).2 = [noop0] ∧
    lookupA "after" (eval_callback0 "after" (add_callback0 "after" noop0 [])).1
      = none :=
  ⟨rfl, rfl⟩

/-- Claim C1 (amended): for every key `K` that does not contain the one-shot
marker substring `"after"` and every no-argument closure `c`: after
registering `c` under `K` via `add_callback0` and dispatching a click for
`K`, `c` is invoked exactly once and remains registered under `K`, unless
`c` itself registered a closure under `K` during its invocation, in which
case that closure is the one registered afterwards. -/
theorem eval_callback0_click_rearm (m : List (String × Closure0)) (K : String)
    (c : Closure0) (hK : containsStr K "after" = false) :
    (eval_callback0 K (add_callback0 K c m)).2 = [c] ∧
    (lookupA K (applyFx c.fx (eraseA K (add_callback0 K c m))) = none →
      lookupA K (eval_callback0 K (add_callback0 K c m)).1 = some c) ∧
    (∀ c', lookupA K (applyFx c.fx (eraseA K (add_callback0 K c m))) = some c' →
      lookupA K (eval_callback0 K (add_callback0 K c m)).1 = some c') := by
  have hl : lookupA K (add_callback0 K c m) = some c := lookupA_insertA_self K c m
  simp only [eval_callback0, hl]
  refine ⟨trivial, ?_, ?_⟩
  · intro h
    rw [if_pos ⟨by simp [hK], by simp [containsA, h]⟩]
    exact lookupA_insertA_self K c _
  · intro c' h
    rw [if_neg (by simp [containsA, h])]
    exact h

/-- Witness for `eval_callback0_click_rearm` at key `".b1"`, including the
concrete outcomes of a non-rebinding and a rebinding closure. -/
theorem eval_callback0_click_rearm_witness :
    containsStr ".b1" "after" = false ∧
    ((eval_callback0 ".b1" (add_callback0 ".b1" noop0 [])).2 = [noop0] ∧
      (lookupA ".b1" (applyFx noop0.fx (eraseA ".b1" (add_callback0 ".b1" noop0 []))) = none →
        lookupA ".b1" (eval_callback0 ".b1" (add_callback0 ".b1" noop0 [])).1 = some noop0) ∧
      (∀ c', lookupA ".b1" (applyFx noop0.fx (eraseA ".b1" (add_callback0 ".b1" noop0 []))) = some c' →
        lookupA ".b1" (eval_callback0 ".b1" (add_callback0 ".b1" noop0 [])).1 = some c')) ∧
    lookupA ".b1" (eval_callback0 ".b1" (add_callback0 ".b1" noop0 [])).1 = some noop0 ∧
    lookupA ".b1" (eval_callback0 ".b1" (add_callback0 ".b1" rebind0 [])).1 = some other0 :=
  ⟨by decide, eval_callback0_click_rearm [] ".b1" noop0 (by decide), rfl, rfl⟩

/-- Claim C2 (counterexample): in the boolean store the one-shot marker is
ignored — a key containing `"after"` IS reinserted after invocation,
contradicting "a key containing the one-shot marker is never reinserted
after invocation, in any store". -/
theorem bool_store_after_key_reinserted :
    lookupA "after"
      (eval_callback1_bool "after" true (add_callback1_bool "after" noopB [])).1
      = some noopB :=
  rfl

/-- Claim C2 (amended): in each of the five callback stores, `invoke`
removes the entry for the key, calls it with the payload, and reinserts the
original closure afterwards unless the invocation installed a closure under
the same key; the reserved one-shot marker substring `"after"`
additionally suppresses reinsertion in the no-argument store only — the
boolean, event, float and font stores ignore it. -/
theorem invoke_remove_call_reinsert :
    (∀ (m : List (String × Closure0)) (K : String) (c : Closure0),
      lookupA K m = some c →
        (eval_callback0 K m).2 = [c] ∧
        (containsStr K "after" = true →
          (eval_callback0 K m).1 = applyFx c.fx (eraseA K m)) ∧
        (containsStr K "after" = false →
          (lookupA K (applyFx c.fx (eraseA K m)) = none →
            lookupA K (eval_callback0 K m).1 = some c) ∧
          (∀ c', lookupA K (applyFx c.fx (eraseA K m)) = some c' →
            lookupA K (eval_callback0 K m).1 = some c'))) ∧
    (∀ (m : List (String × ClosureB)) (K : String) (c : ClosureB) (v : Bool),
      lookupA K m = some c →
        (eval_callback1_bool K v m).2 = [(c, v)] ∧
        (lookupA K (applyFx (c.fx v) (eraseA K m)) = none →
          lookupA K (eval_callback1_bool K v m).1 = some c) ∧
        (∀ c', lookupA K (applyFx (c.fx v) (eraseA K m)) = some c' →
          lookupA K (eval_callback1_bool K v m).1 = some c')) ∧
    (∀ (m : List (String × ClosureE)) (K : String) (c : ClosureE) (v : TkEvent),
      lookupA K m = some c →
        (eval_callback1_event K v m).2 = [(c, v)] ∧
        (lookupA K (applyFx (c.fx v) (eraseA K m)) = none →
          lookupA K (eval_callback1_event K v m).1 = some c) ∧
        (∀ c', lookupA K (applyFx (c.fx v) (eraseA K m)) = some c' →
          lookupA K (eval_callback1_event K v m).1 = some c')) ∧
    (∀ (m : List (String × ClosureF)) (K : String) (c : ClosureF) (v : Float),
      lookupA K m = some c →
        (eval_callback1_float K v m).2 = [(c, v)] ∧
        (lookupA K (applyFx (c.fx v) (eraseA K m)) = none →
          lookupA K (eval_callback1_float K v m).1 = some c) ∧
        (∀ c', lookupA K (applyFx (c.fx v) (eraseA K m)) = some c' →
          lookupA K (eval_callback1_float K v m).1 = some c')) ∧
    (∀ (m : List (String × ClosureFont)) (K : String) (c : ClosureFont)
        (v : TkFont),
      lookupA K m = some c →
        (eval_callback1_font K v m).2 = [(c, v)] ∧
        (lookupA K (applyFx (c.fx v) (eraseA K m)) = none →
          lookupA K (eval_callback1_font K v m).1 = some c) ∧
        (∀ c', lookupA K (applyFx (c.fx v) (eraseA K m)) = some c' →
          lookupA K (eval_callback1_font K v m).1 = some c')) := by
  refine ⟨?_, ?_, ?_, ?_, ?_⟩
  · intro m K c hl
    simp only [eval_callback0, hl]
    refine ⟨trivial, ?_, ?_⟩
    · intro hmark
      rw [if_neg (by simp [hmark])]
    · intro hmark
      refine ⟨?_, ?_⟩
      · intro h
        rw [if_pos ⟨by simp [hmark], by simp [containsA, h]⟩]
        exact lookupA_insertA_self K c _
      · intro c' h
        rw [if_neg (by simp [containsA, h])]
        exact h
  · intro m K c v hl
    simp only [eval_callback1_bool, hl]
    refine ⟨trivial, ?_, ?_⟩
    · intro h
      rw [if_pos (by simp [containsA, h])]
      exact lookupA_insertA_self K c _
    · intro c' h
      rw [if_neg (by simp [containsA, h])]
      exact h
  · intro m K c v hl
    simp only [eval_callback1_event, hl]
    refine ⟨trivial, ?_, ?_⟩
    · intro h
      rw [if_pos (by simp [containsA, h])]
      exact lookupA_insertA_self K c _
    · intro c' h
      rw [if_neg (by simp [containsA, h])]
      exact h
  · intro m K c v hl
    simp only [eval_callback1_float, hl]
    refine ⟨trivial, ?_, ?_⟩
    · intro h
      rw [if_pos (by simp [containsA, h])]
      exact lookupA_insertA_self K c _
    · intro c' h
      rw [if_neg (by simp [containsA, h])]
      exact h
  · intro m K c v hl
    simp only [eval_callback1_font, hl]
    refine ⟨trivial, ?_, ?_⟩
    · intro h
      rw [if_pos (by simp [containsA, h])]
      exact lookupA_insertA_self K c _
    · intro c' h
      rw [if_neg (by simp [containsA, h])]
      exact h

/-- Witness for `invoke_remove_call_reinsert`: the boolean-store part at key
`"k"` with the no-registration closure, plus the concrete outcome. -/
theorem invoke_remove_call_reinsert_witness :
    ((eval_callback1_bool "k" true (add_callback1_bool "k" noopB [])).2
        = [(noopB, true)] ∧
      (lookupA "k" (applyFx (noopB.fx true)
          (eraseA "k" (add_callback1_bool "k" noopB []))) = none →
        lookupA "k"
          (eval_callback1_bool "k" true (add_callback1_bool "k" noopB [])).1
          = some noopB) ∧
      (∀ c', lookupA "k" (applyFx (noopB.fx true)
          (eraseA "k" (add_callback1_bool "k" noopB []))) = some c' →
        lookupA "k"
          (eval_callback1_bool "k" true (add_callback1_bool "k" noopB [])).1
          = some c')) ∧
    lookupA "k"
      (eval_callback1_bool "k" true (add_callback1_bool "k" noopB [])).1
      = some noopB :=
  ⟨invoke_remove_call_reinsert.2.1 (add_callback1_bool "k" noopB []) "k" noopB
      true rfl,
    rfl⟩

theorem isPre_refl_append (p t : List Char) : isPre p (p ++ t) = true := by
  induction p with
  | nil => rfl
  | cons a as_ ih => simp [isPre, ih]

theorem findNL_append (xs ys : List Char)
    (h : ∀ c ∈ xs, ¬ (c = '\n' ∨ c = '\r')) :
    findNL (xs ++ '\n' :: ys) = some xs.length := by
  induction xs with
  | nil => rfl
  | cons a t ih =>
    rw [List.cons_append, findNL, if_neg (h a (List.mem_cons_self a t)),
      ih (fun c hc => h c (List.mem_cons_of_mem a hc))]
    rfl

theorem mainloopStep_clicked (fontP : List Char → Option TkFont)
    (f64P : List Char → Option Float) (st : Stores) (input : List Char)
    (h : isPre "clicked".data input = true) (n : Nat)
    (hn : findNL input = some n) (h8 : ¬ n < 8) :
    mainloopStep fontP f64P input st =
      some ⟨{ st with
                cb0 := (eval_callback0 ⟨(input.drop 8).take (n - 8)⟩ st.cb0).1 },
            0, false,
            (eval_callback0 ⟨(input.drop 8).take (n - 8)⟩ st.cb0).2.map .i0⟩ := by
  unfold mainloopStep
  rw [if_pos h, hn]
  dsimp only
  rw [if_neg h8]


theorem eval_callback1_event_res (K : String) (v : TkEvent)
    (m : List (String × ClosureE)) (c : ClosureE) (hl : lookupA K m = some c) :
    (eval_callback1_event K v m).2 = [(c, v)] := by
  simp only [eval_callback1_event, hl]

/-- Claim C6: for every key `K` with no registered entry in the no-argument
store, dispatching a click notification for `K` (the line
`clicked<sep><K>\n`) invokes no closure, raises no error (no panic), and
leaves every callback store unchanged. -/
theorem clicked_unregistered_noop (fontP : List Char → Option TkFont)
    (f64P : List Char → Option Float) (st : Stores) (sep : Char) (K : String)
    (hsep : ¬ (sep = '\n' ∨ sep = '\r'))
    (hK : ∀ ch ∈ K.data, ¬ (ch = '\n' ∨ ch = '\r'))
    (hreg : lookupA K st.cb0 = none) :
    mainloopStep fontP f64P ("clicked".data ++ sep :: K.data ++ ['\n']) st =
      some ⟨st, 0, false, []⟩ := by
  have hpre : isPre "clicked".data
      ("clicked".data ++ sep :: K.data ++ ['\n']) = true :=
    isPre_refl_append _ _
  have hshape : "clicked".data ++ sep :: K.data ++ ['\n'] =
      ("clicked".data ++ sep :: K.data) ++ '\n' :: [] := by simp
  have hlen : ("clicked".data ++ sep :: K.data).length = 8 + K.data.length := by
    have h7 : ("clicked".data).length = 7 := rfl
    simp [List.length_append, h7]
    omega
  have hnl : findNL ("clicked".data ++ sep :: K.data ++ ['\n']) =
      some (8 + K.data.length) := by
    rw [hshape, findNL_append, hlen]
    intro ch hch
    rcases List.mem_append.mp hch with hcl | hck
    · revert hcl
      have : ∀ ch ∈ "clicked".data, ¬ (ch = '\n' ∨ ch = '\r') := by decide
      exact this ch
    · rcases List.mem_cons.mp hck with rfl | hkk
      · exact hsep
      · exact hK ch hkk
  have hdt : (("clicked".data ++ sep :: K.data ++ ['\n']).drop 8).take
      (8 + K.data.length - 8) = K.data := by
    have hshape2 : "clicked".data ++ sep :: K.data ++ ['\n'] =
        ("clicked".data ++ [sep]) ++ (K.data ++ ['\n']) := by simp
    have hlen2 : ("clicked".data ++ [sep]).length = 8 := by
      have h7 : ("clicked".data).length = 7 := rfl
      simp [List.length_append, h7]
    have hdrop : (("clicked".data ++ sep :: K.data ++ ['\n'])).drop 8 =
        K.data ++ ['\n'] := by
      rw [hshape2, ← hlen2, List.drop_left]
    rw [hdrop]
    have : 8 + K.data.length - 8 = K.data.length := by omega
    rw [this]
    exact List.take_left K.data ['\n']
  rw [mainloopStep_clicked fontP f64P st _ hpre (8 + K.data.length) hnl
    (by omega)]
  rw [hdt]
  have hKeta : (⟨K.data⟩ : String) = K := rfl
  rw [hKeta]
  simp only [eval_callback0, hreg]
  rfl

/-- Witness for `clicked_unregistered_noop`: key `".b9"`, separator `'-'`,
empty stores. -/
theorem clicked_unregistered_noop_witness :
    (¬ (('-' : Char) = '\n' ∨ ('-' : Char) = '\r')) ∧
    lookupA ".b9" emptyStores.cb0 = none ∧
    mainloopStep (fun _ => none) (fun _ => none)
      ("clicked".data ++ '-' :: ".b9".data ++ ['\n']) emptyStores =
      some ⟨emptyStores, 0, false, []⟩ :=
  ⟨by decide, rfl,
    clicked_unregistered_noop (fun _ => none) (fun _ => none) emptyStores '-'
      ".b9" (by decide) (by decide) rfl⟩

/-- Claim C7: `ask_wish(line)` first sends the line through the outbound
command channel (followed by the `"\n"` send of `tell_wish`), then performs
one blocking read; it returns the chunk decoded as text with surrounding
whitespace trimmed, and if the read fails or the bytes are not valid text
the calling context panics (`Except.error`) instead of returning. -/
theorem ask_wish_contract (msg : String) (readRes : Option (Option String))
    (chan : List String) :
    (ask_wish msg readRes chan).1 = chan ++ [msg, "\n"] ∧
    (∀ s, readRes = some (some s) →
      (ask_wish msg readRes chan).2 = .ok (trimStr s)) ∧
    (readRes = none ∨ readRes = some none →
      (ask_wish msg readRes chan).2 =
        .error "Eval-wish failed to get a result") := by
  refine ⟨?_, ?_, ?_⟩
  · rcases readRes with _ | (_ | s) <;> rfl
  · intro s h
    rw [h]
    rfl
  · intro h
    rcases h with h | h <;> rw [h] <;> rfl

/-- Witness for `ask_wish_contract` on a successful and on a failed read. -/
theorem ask_wish_contract_witness :
    (ask_wish "winfo geometry ." (some (some " 200x200 \n")) []).1 =
      [] ++ ["winfo geometry .", "\n"] ∧
    (ask_wish "winfo geometry ." (some (some " 200x200 \n")) []).2 =
      .ok "200x200" ∧
    (ask_wish "winfo geometry ." none []).2 =
      .error "Eval-wish failed to get a result" := by
  refine ⟨(ask_wish_contract "winfo geometry ."
      (some (some " 200x200 \n")) []).1, ?_,
    (ask_wish_contract "winfo geometry ." none []).2.2 (Or.inl rfl)⟩
  rw [(ask_wish_contract "winfo geometry ."
      (some (some " 200x200 \n")) []).2.1 " 200x200 \n" rfl]
  rfl

theorem start_tk_connection_traceSet (w : String) (s : Bool) (g : GlobalsSt) :
    (start_tk_connection w s g).1.traceSet = g.traceSet := by
  obtain ⟨t, w1, o1, s1⟩ := g
  cases s <;> cases w1 <;> cases o1 <;> cases s1 <;> rfl

/-- Claim C8: starting the connection (`start_wish` / `start_with` /
`trace_with`) more than once makes every call after the first return an
error result, enforced by the set-once `TRACE_WISH` guard (which every call
sets); the first successful call returns `Ok` with a root handle whose
identifier is `"."`. -/
theorem start_once_guard :
    (∀ (wish : String) (spawnOk : Bool) (g : GlobalsSt), g.traceSet = true →
      (start_with wish spawnOk g).2 =
        some (.error "Failed to set trace option") ∧
      (trace_with wish spawnOk g).2 =
        some (.error "Failed to set trace option") ∧
      (start_wish spawnOk g).2 =
        some (.error "Failed to set trace option")) ∧
    (∀ (wish : String) (spawnOk : Bool) (g : GlobalsSt),
      ((start_with wish spawnOk g).1).traceSet = true ∧
      ((trace_with wish spawnOk g).1).traceSet = true) ∧
    (∀ wish : String, start_with wish true ⟨false, false, false, false⟩ =
      (⟨true, true, true, true⟩, some (.ok ⟨"."⟩))) := by
  refine ⟨?_, ?_, ?_⟩
  · intro wish spawnOk g h
    refine ⟨?_, ?_, ?_⟩ <;> simp [start_with, trace_with, start_wish, h]
  · intro wish spawnOk g
    constructor
    · by_cases h : g.traceSet = true
      · simp [start_with, h]
      · rw [start_with, if_neg h, start_tk_connection_traceSet]
    · by_cases h : g.traceSet = true
      · simp [trace_with, h]
      · rw [trace_with, if_neg h, start_tk_connection_traceSet]
  · intro wish
    rfl

/-- Witness for `start_once_guard`: a second call fails however entered,
and a fresh first call succeeds with root id `"."`. -/
theorem start_once_guard_witness :
    ((start_with "wish" true ⟨true, false, false, false⟩).2 =
        some (.error "Failed to set trace option") ∧
      (trace_with "wish" true ⟨true, false, false, false⟩).2 =
        some (.error "Failed to set trace option") ∧
      (start_wish true ⟨true, false, false, false⟩).2 =
        some (.error "Failed to set trace option")) ∧
    start_with "wish" true ⟨false, false, false, false⟩ =
      (⟨true, true, true, true⟩, some (.ok ⟨"."⟩)) :=
  ⟨start_once_guard.1 "wish" true ⟨true, false, false, false⟩ rfl,
    start_once_guard.2.2 "wish"⟩

theorem isPre_exists {p l : List Char} (h : isPre p l = true) :
    ∃ t, l = p ++ t := by
  induction p generalizing l with
  | nil => exact ⟨l, rfl⟩
  | cons a as_ ih =>
    cases l with
    | nil => cases h
    | cons b bs =>
      rw [isPre, Bool.and_eq_true] at h
      obtain ⟨h1, h2⟩ := h
      obtain ⟨t, ht⟩ := ih h2
      exact ⟨t, by rw [ht, of_decide_eq_true h1]; rfl⟩

theorem mainloopStep_exit (fontP : List Char → Option TkFont)
    (f64P : List Char → Option Float) (st : Stores) (input : List Char)
    (h : isPre "exit".data input = true) :
    mainloopStep fontP f64P input st = some ⟨st, 1, true, []⟩ := by
  obtain ⟨t, rfl⟩ := isPre_exists h
  rfl

theorem mainloopStep_not_exit (fontP : List Char → Option TkFont)
    (f64P : List Char → Option Float) (input : List Char) (st : Stores)
    (r : StepRes) (hne : ¬ isPre "exit".data input = true)
    (h : mainloopStep fontP f64P input st = some r) :
    r.kills = 0 ∧ r.stopped = false := by
  unfold mainloopStep at h
  by_cases hcl : isPre "clicked".data input = true
  · rw [if_pos hcl] at h
    cases hf : findNL input with
    | none =>
      rw [hf] at h
      injection h with h'
      subst h'
      exact ⟨rfl, rfl⟩
    | some n =>
      rw [hf] at h
      dsimp only at h
      by_cases h8 : n < 8
      · rw [if_pos h8] at h
        cases h
      · rw [if_neg h8] at h
        injection h with h'
        subst h'
        exact ⟨rfl, rfl⟩
  · rw [if_neg hcl] at h
    by_cases hb : isPre "cb1b".data input = true
    · rw [if_pos hb] at h
      rcases hsp : splitOnChar '-' input with
          _ | ⟨p0, _ | ⟨p1, _ | ⟨p2, ps⟩⟩⟩ <;>
        rw [hsp] at h <;> dsimp only at h <;>
        (cases h <;> exact ⟨rfl, rfl⟩)
    · rw [if_neg hb] at h
      by_cases he : isPre "cb1e".data input = true
      · rw [if_pos he] at h
        rcases hsp : splitOnChar ':' input with
            _ | ⟨p0, _ | ⟨p1, _ | ⟨p2, _ | ⟨p3, _ | ⟨p4, _ | ⟨p5, _ | ⟨p6,
              _ | ⟨p7, _ | ⟨p8, _ | ⟨p9, _ | ⟨p10, ps⟩⟩⟩⟩⟩⟩⟩⟩⟩⟩⟩ <;>
          rw [hsp] at h <;> dsimp only at h <;>
          (cases h <;> exact ⟨rfl, rfl⟩)
      · rw [if_neg he] at h
        by_cases hff : isPre "cb1f".data input = true
        · rw [if_pos hff] at h
          rcases hsp : splitOnChar '-' input with
              _ | ⟨p0, _ | ⟨p1, _ | ⟨p2, ps⟩⟩⟩ <;>
            rw [hsp] at h <;> dsimp only at h <;>
            (cases h <;> exact ⟨rfl, rfl⟩)
        · rw [if_neg hff] at h
          by_cases hfo : isPre "font".data input = true
          · rw [if_pos hfo] at h
            dsimp only at h
            cases hfp : fontP (trimB (input.drop 4)) <;>
              (rw [hfp] at h; dsimp only at h; cases h; exact ⟨rfl, rfl⟩)
          · rw [if_neg hfo, if_neg hne] at h
            injection h with h'
            subst h'
            exact ⟨rfl, rfl⟩

theorem mainloopRun_spec (fontP : List Char → Option TkFont)
    (f64P : List Char → Option Float) :
    ∀ (chunks : List (List Char)) (st stf : Stores) (k : Nat) (b : Bool),
      mainloopRun fontP f64P chunks st = some (stf, k, b) →
      (b = true → k = 1 ∧ ∃ pre c post, chunks = pre ++ c :: post ∧
        isPre "exit".data c = true ∧
        ∀ c' ∈ pre, ¬ isPre "exit".data c' = true) ∧
      (b = false → k = 0) := by
  intro chunks
  induction chunks with
  | nil =>
    intro st stf k b h
    simp only [mainloopRun, Option.some.injEq, Prod.mk.injEq] at h
    obtain ⟨h1, h2, h3⟩ := h
    constructor
    · intro hb
      rw [← h3] at hb
      cases hb
    · intro _
      omega
  | cons c rest ih =>
    intro st stf k b h
    rw [mainloopRun] at h
    cases hstep : mainloopStep fontP f64P c st with
    | none => rw [hstep] at h; cases h
    | some r =>
      rw [hstep] at h
      dsimp only at h
      by_cases hs : r.stopped = true
      · rw [if_pos hs] at h
        simp only [Option.some.injEq, Prod.mk.injEq] at h
        obtain ⟨h1, h2, h3⟩ := h
        have hex : isPre "exit".data c = true := by
          by_contra hne
          have hsf := (mainloopStep_not_exit fontP f64P c st r hne hstep).2
          rw [hsf] at hs
          cases hs
        have hk : r.kills = 1 := by
          have h1' := mainloopStep_exit fontP f64P st c hex
          rw [hstep] at h1'
          injection h1' with h1''
          rw [h1'']
        constructor
        · intro _
          exact ⟨by omega, [], c, rest, rfl, hex, by simp⟩
        · intro hb
          rw [← h3] at hb
          cases hb
      · rw [if_neg hs] at h
        cases hrun : mainloopRun fontP f64P rest r.st with
        | none => rw [hrun] at h; cases h
        | some q =>
          rw [hrun] at h
          simp only [Option.map_some', Option.some.injEq, Prod.mk.injEq] at h
          obtain ⟨h1, h2, h3⟩ := h
          have hnex : ¬ isPre "exit".data c = true := by
            intro hex
            have h1' := mainloopStep_exit fontP f64P st c hex
            rw [hstep] at h1'
            injection h1' with h1''
            rw [h1''] at hs
            exact hs rfl
          have hr0 : r.kills = 0 :=
            (mainloopStep_not_exit fontP f64P c st r hnex hstep).1
          have hq : mainloopRun fontP f64P rest r.st =
              some (q.1, q.2.1, q.2.2) := by rw [hrun]
          obtain ⟨ihq1, ihq2⟩ := ih r.st q.1 q.2.1 q.2.2 hq
          constructor
          · intro hb
            obtain ⟨hk1, pre, cc, post, hsplit, hexc, hprenex⟩ :=
              ihq1 (by rw [← hb, ← h3])
            refine ⟨by omega, c :: pre, cc, post, by rw [List.cons_append,
              hsplit], hexc, ?_⟩
            intro c' hc'
            rcases List.mem_cons.mp hc' with rfl | hmem
            · exact hnex
            · exact hprenex c' hmem
          · intro hb
            have hq0 := ihq2 (by rw [← hb, ← h3])
            omega

/-- Claim C5: when the event loop, running, reads a line beginning with
`exit`, it terminates the child process exactly once and stops, returning
control to the caller; any other line neither kills the child nor returns;
and a completed run returns with exactly one kill exactly when an
`exit`-prefixed chunk was reached, every earlier chunk being a non-exit
line. -/
theorem mainloop_exit_stops_once (fontP : List Char → Option TkFont)
    (f64P : List Char → Option Float) :
    (∀ (input : List Char) (st : Stores), isPre "exit".data input = true →
      mainloopStep fontP f64P input st = some ⟨st, 1, true, []⟩) ∧
    (∀ (input : List Char) (st : Stores) (r : StepRes),
      ¬ isPre "exit".data input = true →
      mainloopStep fontP f64P input st = some r →
      r.kills = 0 ∧ r.stopped = false) ∧
    (∀ (chunks : List (List Char)) (st stf : Stores) (k : Nat) (b : Bool),
      mainloopRun fontP f64P chunks st = some (stf, k, b) →
      (b = true → k = 1 ∧ ∃ pre c post, chunks = pre ++ c :: post ∧
        isPre "exit".data c = true ∧
        ∀ c' ∈ pre, ¬ isPre "exit".data c' = true) ∧
      (b = false → k = 0)) :=
  ⟨fun input st h => mainloopStep_exit fontP f64P st input h,
   fun input st r hne h => mainloopStep_not_exit fontP f64P input st r hne h,
   mainloopRun_spec fontP f64P⟩

/-- Witness for `mainloop_exit_stops_once`: the single chunk `"exit\n"`
stops with one kill, and a two-chunk run (a click line, then exit). -/
theorem mainloop_exit_stops_once_witness :
    mainloopStep (fun _ => none) (fun _ => none) "exit\n".data emptyStores =
      some ⟨emptyStores, 1, true, []⟩ ∧
    ((true = true → 1 = 1 ∧
        ∃ pre c post,
          ["clicked-x\n".data, "exit\n".data] = pre ++ c :: post ∧
          isPre "exit".data c = true ∧
          ∀ c' ∈ pre, ¬ isPre "exit".data c' = true) ∧
      (true = false → 1 = 0)) :=
  ⟨(mainloop_exit_stops_once (fun _ => none) (fun _ => none)).1 "exit\n".data
      emptyStores (by decide),
   (mainloop_exit_stops_once (fun _ => none) (fun _ => none)).2.2
      ["clicked-x\n".data, "exit\n".data] emptyStores emptyStores 1 true rfl⟩

theorem digitChar_inj (a b : Nat) (ha : a < 10) (hb : b < 10)
    (h : digitChar a = digitChar b) : a = b := by
  interval_cases a <;> interval_cases b <;> simp_all [digitChar]

theorem digitChar_isDigit (a : Nat) (ha : a < 10) :
    (digitChar a).isDigit = true := by
  interval_cases a <;> decide

theorem natDigits_ne_nil (n : Nat) : natDigits n ≠ [] := by
  rw [natDigits]
  split <;> simp

theorem natDigits_all_digit (n : Nat) :
    ∀ c ∈ natDigits n, c.isDigit = true := by
  induction n using Nat.strong_induction_on with
  | _ n ih =>
    rw [natDigits]
    split
    · intro c hc
      rw [List.mem_singleton] at hc
      subst hc
      exact digitChar_isDigit n (by omega)
    · intro c hc
      rcases List.mem_append.mp hc with hl | hr
      · exact ih (n / 10) (Nat.div_lt_self (by omega) (by omega)) c hl
      · rw [List.mem_singleton] at hr
        subst hr
        exact digitChar_isDigit (n % 10) (Nat.mod_lt n (by omega))

theorem natDigits_inj : ∀ (n m : Nat), natDigits n = natDigits m → n = m := by
  intro n
  induction n using Nat.strong_induction_on with
  | _ n ih =>
    intro m h
    rw [natDigits] at h
    conv at h => rhs; rw [natDigits]
    split at h <;> split at h
    · rename_i hn hm
      rw [List.cons.injEq] at h
      exact digitChar_inj n m hn hm h.1
    · rename_i hn hm
      exfalso
      have hlen := congrArg List.length h
      have hne := natDigits_ne_nil (m / 10)
      have hpos : 0 < (natDigits (m / 10)).length := List.length_pos.mpr hne
      simp only [List.length_append, List.length_singleton,
        List.length_cons, List.length_nil] at hlen
      omega
    · rename_i hn hm
      exfalso
      have hlen := congrArg List.length h
      have hne := natDigits_ne_nil (n / 10)
      have hpos : 0 < (natDigits (n / 10)).length := List.length_pos.mpr hne
      simp only [List.length_append, List.length_singleton,
        List.length_cons, List.length_nil] at hlen
      omega
    · rename_i hn hm
      obtain ⟨h1, h2⟩ := List.append_inj' h rfl
      rw [List.cons.injEq] at h2
      have hdiv : n / 10 = m / 10 :=
        ih (n / 10) (Nat.div_lt_self (by omega) (by omega)) (m / 10) h1
      have hmod : n % 10 = m % 10 :=
        digitChar_inj (n % 10) (m % 10) (Nat.mod_lt n (by omega))
          (Nat.mod_lt m (by omega)) h2.1
      omega

theorem natFmt_inj {n m : Nat} (h : natFmt n = natFmt m) : n = m := by
  apply natDigits_inj
  have := congrArg String.data h
  exact this

theorem digit_marker_inj :
    ∀ (as bs u v : List Char), (∀ c ∈ as, c.isDigit = true) →
      (∀ c ∈ bs, c.isDigit = true) → as ++ 'r' :: u = bs ++ 'r' :: v →
      as = bs := by
  intro as
  induction as with
  | nil =>
    intro bs u v _ hbs h
    cases bs with
    | nil => rfl
    | cons b bs' =>
      exfalso
      rw [List.nil_append, List.cons_append, List.cons.injEq] at h
      have hb : b.isDigit = true := hbs b (List.mem_cons_self b bs')
      rw [← h.1] at hb
      cases hb
  | cons a as' ih =>
    intro bs u v has hbs h
    cases bs with
    | nil =>
      exfalso
      rw [List.nil_append, List.cons_append, List.cons.injEq] at h
      have ha : a.isDigit = true := has a (List.mem_cons_self a as')
      rw [h.1] at ha
      cases ha
    | cons b bs' =>
      rw [List.cons_append, List.cons_append, List.cons.injEq] at h
      rw [h.1, ih bs' u v (fun c hc => has c (List.mem_cons_of_mem a hc))
        (fun c hc => hbs c (List.mem_cons_of_mem b hc)) h.2]

theorem suffix_digits_inj (l1 l2 : List Char) (a b : Nat)
    (h : l1 ++ '.' :: 'r' :: natDigits a = l2 ++ '.' :: 'r' :: natDigits b) :
    a = b := by
  have hrev := congrArg List.reverse h
  simp only [List.reverse_append, List.reverse_cons, List.append_assoc,
    List.cons_append, List.nil_append] at hrev
  have heq : (natDigits a).reverse = (natDigits b).reverse :=
    digit_marker_inj (natDigits a).reverse (natDigits b).reverse _ _
      (fun c hc => natDigits_all_digit a c (List.mem_reverse.mp hc))
      (fun c hc => natDigits_all_digit b c (List.mem_reverse.mp hc)) hrev
  exact natDigits_inj a b (List.reverse_injective heq)
theorem intFmt_natCast (k : Nat) : intFmt (k : Int) = natFmt k := by
  rw [intFmt, if_neg (by omega)]
  rw [Int.toNat_natCast]

theorem renderOp_wid_ne (p q : String) (a b : Nat) (hne : a ≠ b) :
    renderOp (.wid p) ((a : Nat) : Int) ≠ renderOp (.wid q) ((b : Nat) : Int) := by
  intro h
  apply hne
  simp only [renderOp, intFmt_natCast] at h
  by_cases hp : p = "." <;> by_cases hq : q = "." <;>
    simp only [if_pos, if_neg, hp, hq, ite_true, ite_false] at h <;>
    have hd := congrArg String.data h
  · exact suffix_digits_inj [] [] a b hd
  · rw [String.data_append, String.data_append, String.data_append,
      List.append_assoc] at hd
    exact suffix_digits_inj [] q.data a b hd
  · rw [String.data_append, String.data_append, String.data_append,
      List.append_assoc] at hd
    exact suffix_digits_inj p.data [] a b hd
  · rw [String.data_append, String.data_append, String.data_append,
      String.data_append, List.append_assoc, List.append_assoc] at hd
    exact suffix_digits_inj p.data q.data a b hd

theorem wrapI64_id (k : Int) (h0 : 0 ≤ k) (h1 : k < 2 ^ 63) :
    wrapI64 k = k := by
  unfold wrapI64
  rw [Int.emod_eq_of_lt (by omega) (by omega)]
  omega

theorem runIds_get :
    ∀ (ops : List IdOp) (n : Int) (i : Nat) (op : IdOp), 0 ≤ n →
      n + ops.length < 2 ^ 63 → ops[i]? = some op →
      (runIds ops n).1[i]? = some (renderOp op (n + i + 1)) := by
  intro ops
  induction ops with
  | nil =>
    intro n i op _ _ hop
    simp at hop
  | cons o rest ih =>
    intro n i op h0 hb hop
    have hb1 : n + 1 < 2 ^ 63 := by
      simp only [List.length_cons] at hb
      push_cast at hb
      omega
    have hw : wrapI64 (n + 1) = n + 1 := wrapI64_id _ (by omega) hb1
    have hstep : (runIds (o :: rest) n).1 =
        (match o with
          | .wid p => next_wid p n
          | .var => next_var n).1 :: (runIds rest (wrapI64 (n + 1))).1 := by
      cases o <;> rfl
    cases i with
    | zero =>
      rw [List.getElem?_cons_zero] at hop
      injection hop with hop'
      subst hop'
      rw [hstep, List.getElem?_cons_zero]
      cases o with
      | wid p =>
        simp only [next_wid, hw, renderOp]
        norm_num
      | var =>
        simp only [next_var, hw, renderOp]
        norm_num
    | succ i' =>
      rw [List.getElem?_cons_succ] at hop
      have hb' : (n + 1) + (rest.length : Int) < 2 ^ 63 := by
        simp only [List.length_cons] at hb
        push_cast at hb ⊢
        omega
      have hres := ih (n + 1) i' op (by omega) hb' hop
      rw [hstep, List.getElem?_cons_succ, hw, hres]
      congr 2
      push_cast
      ring

/-- Claim C4: over any sequence of `next_wid` / `next_var` calls drawing
from the shared counter (starting at `0`, with fewer than `2^63` calls so
the `i64` never wraps), all returned widget identifiers are pairwise
distinct; `next_wid(".")` returns `.r<N>` with `N = i + 1` strictly
increasing across successive calls; for any other parent `P` it returns
`P.r<N>`; `next_var` returns `::var<N>`; and a widget identifier and a
variable name never carry the same numeric suffix. -/
theorem next_wid_next_var_unique (ops : List IdOp)
    (hlen : ((ops.length : Nat) : Int) < 2 ^ 63) :
    (∀ (i j : Nat) (pi pj : String), i < j →
      ops[i]? = some (IdOp.wid pi) → ops[j]? = some (IdOp.wid pj) →
      (runIds ops 0).1[i]? ≠ (runIds ops 0).1[j]?) ∧
    (∀ i : Nat, ops[i]? = some (IdOp.wid ".") →
      (runIds ops 0).1[i]? = some (".r" ++ natFmt (i + 1))) ∧
    (∀ (i : Nat) (p : String), p ≠ "." → ops[i]? = some (IdOp.wid p) →
      (runIds ops 0).1[i]? = some (p ++ ".r" ++ natFmt (i + 1))) ∧
    (∀ j : Nat, ops[j]? = some IdOp.var →
      (runIds ops 0).1[j]? = some ("::var" ++ natFmt (j + 1))) ∧
    (∀ (i j : Nat) (p : String), ops[i]? = some (IdOp.wid p) →
      ops[j]? = some IdOp.var → natFmt (i + 1) ≠ natFmt (j + 1)) := by
  have hget : ∀ (i : Nat) (op : IdOp), ops[i]? = some op →
      (runIds ops 0).1[i]? = some (renderOp op ((i + 1 : Nat) : Int)) := by
    intro i op hop
    rw [runIds_get ops 0 i op le_rfl (by omega) hop]
    congr 2
    push_cast
    ring
  refine ⟨?_, ?_, ?_, ?_, ?_⟩
  · intro i j pi pj hij hi hj
    rw [hget i _ hi, hget j _ hj]
    intro h
    injection h with h'
    exact renderOp_wid_ne pi pj (i + 1) (j + 1) (by omega) h'
  · intro i hi
    rw [hget i _ hi, renderOp, intFmt_natCast, if_pos rfl]
  · intro i p hp hi
    rw [hget i _ hi, renderOp, intFmt_natCast, if_neg hp]
  · intro j hj
    rw [hget j _ hj, renderOp, intFmt_natCast]
  · intro i j p hi hj hfmt
    have hij : i = j := by
      have := natFmt_inj hfmt
      omega
    subst hij
    rw [hi] at hj
    injection hj with hj'
    cases hj'

/-- Witness for `next_wid_next_var_unique`: four allocator calls — root
widget, variable, root widget, widget under `.b`. -/
theorem next_wid_next_var_unique_witness :
    ((([IdOp.wid ".", IdOp.var, IdOp.wid ".", IdOp.wid ".b"].length : Nat) :
      Int) < 2 ^ 63) ∧
    ((∀ (i j : Nat) (pi pj : String), i < j →
        [IdOp.wid ".", IdOp.var, IdOp.wid ".", IdOp.wid ".b"][i]? =
          some (IdOp.wid pi) →
        [IdOp.wid ".", IdOp.var, IdOp.wid ".", IdOp.wid ".b"][j]? =
          some (IdOp.wid pj) →
        (runIds [IdOp.wid ".", IdOp.var, IdOp.wid ".", IdOp.wid ".b"] 0).1[i]? ≠
        (runIds [IdOp.wid ".", IdOp.var, IdOp.wid ".", IdOp.wid ".b"] 0).1[j]?) ∧
      (∀ i : Nat,
        [IdOp.wid ".", IdOp.var, IdOp.wid ".", IdOp.wid ".b"][i]? =
          some (IdOp.wid ".") →
        (runIds [IdOp.wid ".", IdOp.var, IdOp.wid ".", IdOp.wid ".b"] 0).1[i]? =
          some (".r" ++ natFmt (i + 1))) ∧
      (∀ (i : Nat) (p : String), p ≠ "." →
        [IdOp.wid ".", IdOp.var, IdOp.wid ".", IdOp.wid ".b"][i]? =
          some (IdOp.wid p) →
        (runIds [IdOp.wid ".", IdOp.var, IdOp.wid ".", IdOp.wid ".b"] 0).1[i]? =
          some (p ++ ".r" ++ natFmt (i + 1))) ∧
      (∀ j : Nat,
        [IdOp.wid ".", IdOp.var, IdOp.wid ".", IdOp.wid ".b"][j]? =
          some IdOp.var →
        (runIds [IdOp.wid ".", IdOp.var, IdOp.wid ".", IdOp.wid ".b"] 0).1[j]? =
          some ("::var" ++ natFmt (j + 1))) ∧
      (∀ (i j : Nat) (p : String),
        [IdOp.wid ".", IdOp.var, IdOp.wid ".", IdOp.wid ".b"][i]? =
          some (IdOp.wid p) →
        [IdOp.wid ".", IdOp.var, IdOp.wid ".", IdOp.wid ".b"][j]? =
          some IdOp.var →
        natFmt (i + 1) ≠ natFmt (j + 1))) :=
  ⟨by decide,
   next_wid_next_var_unique
     [IdOp.wid ".", IdOp.var, IdOp.wid ".", IdOp.wid ".b"] (by decide)⟩

theorem splitOnChar_no_sep (c : Char) (l : List Char) (h : c ∉ l) :
    splitOnChar c l = [l] := by
  induction l with
  | nil => rfl
  | cons a t ih =>
    rw [splitOnChar, ih (fun hm => h (List.mem_cons_of_mem a hm))]
    dsimp only
    rw [if_neg (fun he : a = c => h (List.mem_cons.mpr (Or.inl he.symm)))]

theorem splitOnChar_cons_ne {c ch : Char} {t X : List Char}
    {Xs : List (List Char)} (hne : ch ≠ c) (ht : splitOnChar c t = X :: Xs) :
    splitOnChar c (ch :: t) = (ch :: X) :: Xs := by
  rw [splitOnChar, ht]
  dsimp only
  rw [if_neg hne]

theorem splitOnChar_cons_eq {c : Char} {t X : List Char}
    {Xs : List (List Char)} (ht : splitOnChar c t = X :: Xs) :
    splitOnChar c (c :: t) = [] :: X :: Xs := by
  rw [splitOnChar, ht]
  dsimp only
  rw [if_pos rfl]

theorem splitOnChar_cb1e_pad (pad : List Char) (hpad : ':' ∉ pad) :
    splitOnChar ':' ("cb1e:.b1:10:20:110:220:50:80:65:a:1\n".data ++ pad) =
      ["cb1e".data, ".b1".data, "10".data, "20".data, "110".data, "220".data,
        "50".data, "80".data, "65".data, "a".data, '1' :: '\n' :: pad] := by
  have h0 := splitOnChar_no_sep ':' ('1' :: '\n' :: pad) (by simp [hpad])
  have h1 := splitOnChar_cons_eq h0
  have h2 := splitOnChar_cons_ne (show ('a' : Char) ≠ ':' by decide) h1
  have h3 := splitOnChar_cons_eq h2
  have h4 := splitOnChar_cons_ne (show ('5' : Char) ≠ ':' by decide) h3
  have h5 := splitOnChar_cons_ne (show ('6' : Char) ≠ ':' by decide) h4
  have h6 := splitOnChar_cons_eq h5
  have h7 := splitOnChar_cons_ne (show ('0' : Char) ≠ ':' by decide) h6
  have h8 := splitOnChar_cons_ne (show ('8' : Char) ≠ ':' by decide) h7
  have h9 := splitOnChar_cons_eq h8
  have h10 := splitOnChar_cons_ne (show ('0' : Char) ≠ ':' by decide) h9
  have h11 := splitOnChar_cons_ne (show ('5' : Char) ≠ ':' by decide) h10
  have h12 := splitOnChar_cons_eq h11
  have h13 := splitOnChar_cons_ne (show ('0' : Char) ≠ ':' by decide) h12
  have h14 := splitOnChar_cons_ne (show ('2' : Char) ≠ ':' by decide) h13
  have h15 := splitOnChar_cons_ne (show ('2' : Char) ≠ ':' by decide) h14
  have h16 := splitOnChar_cons_eq h15
  have h17 := splitOnChar_cons_ne (show ('0' : Char) ≠ ':' by decide) h16
  have h18 := splitOnChar_cons_ne (show ('1' : Char) ≠ ':' by decide) h17
  have h19 := splitOnChar_cons_ne (show ('1' : Char) ≠ ':' by decide) h18
  have h20 := splitOnChar_cons_eq h19
  have h21 := splitOnChar_cons_ne (show ('0' : Char) ≠ ':' by decide) h20
  have h22 := splitOnChar_cons_ne (show ('2' : Char) ≠ ':' by decide) h21
  have h23 := splitOnChar_cons_eq h22
  have h24 := splitOnChar_cons_ne (show ('0' : Char) ≠ ':' by decide) h23
  have h25 := splitOnChar_cons_ne (show ('1' : Char) ≠ ':' by decide) h24
  have h26 := splitOnChar_cons_eq h25
  have h27 := splitOnChar_cons_ne (show ('1' : Char) ≠ ':' by decide) h26
  have h28 := splitOnChar_cons_ne (show ('b' : Char) ≠ ':' by decide) h27
  have h29 := splitOnChar_cons_ne (show ('.' : Char) ≠ ':' by decide) h28
  have h30 := splitOnChar_cons_eq h29
  have h31 := splitOnChar_cons_ne (show ('e' : Char) ≠ ':' by decide) h30
  have h32 := splitOnChar_cons_ne (show ('1' : Char) ≠ ':' by decide) h31
  have h33 := splitOnChar_cons_ne (show ('b' : Char) ≠ ':' by decide) h32
  have h34 := splitOnChar_cons_ne (show ('c' : Char) ≠ ':' by decide) h33
  exact h34

/-- Claim C3 (code-bug evidence): the chunk the event loop actually decodes
is the full `[32; 10000]` read buffer — the wire line, its `'\n'`
terminator, and trailing padding spaces.  For any such padding (no `':'`
in it; the real buffer pads with `' '`), the cb1e branch parses the nine
leading fields exactly as the claim says and routes to the callback
registered under `.b1`, but the final colon-field is the UNTRIMMED
`"1\n" ++ padding`, whose `u64` parse fails, so `unwrap_or(0)` dispatches
`mouse_button = 0` where the claim (and the wire protocol) say `1`. -/
theorem cb1e_padded_chunk_mouse_button_zero
    (fontP : List Char → Option TkFont) (f64P : List Char → Option Float)
    (pad : List Char) (hpad : ':' ∉ pad) (st : Stores) (c : ClosureE)
    (hc : lookupA ".b1" st.cbE = some c) :
    ∃ r : StepRes,
      mainloopStep fontP f64P
          ("cb1e:.b1:10:20:110:220:50:80:65:a:1\n".data ++ pad) st = some r ∧
      r.log = [Invoked.ie c ⟨10, 20, 110, 220, 50, 80, 65, "a", 0⟩] ∧
      r.stopped = false ∧ r.kills = 0 := by
  have hsplit := splitOnChar_cb1e_pad pad hpad
  have hstep : mainloopStep fontP f64P
      ("cb1e:.b1:10:20:110:220:50:80:65:a:1\n".data ++ pad) st =
      some ⟨{ st with
                cbE := (eval_callback1_event ".b1"
                  ⟨10, 20, 110, 220, 50, 80, 65, "a", 0⟩ st.cbE).1 },
            0, false,
            (eval_callback1_event ".b1"
              ⟨10, 20, 110, 220, 50, 80, 65, "a", 0⟩ st.cbE).2.map
              fun p => .ie p.1 p.2⟩ := by
    unfold mainloopStep
    rw [if_neg (fun hh => Bool.noConfusion hh),
      if_neg (fun hh => Bool.noConfusion hh),
      if_pos (show
        isPre "cb1e".data ("cb1e:.b1:10:20:110:220:50:80:65:a:1\n".data ++ pad)
          = true by rfl),
      hsplit]
    rfl
  rw [hstep]
  refine ⟨_, rfl, ?_, rfl, rfl⟩
  rw [eval_callback1_event_res ".b1" _ _ c hc]
  rfl

/-- Witness for `cb1e_padded_chunk_mouse_button_zero` at the exact decoded
buffer — the 36-character line followed by `10000 - 36 = 9964` padding
spaces — with `noopE` registered under `.b1`. -/
theorem cb1e_padded_chunk_mouse_button_zero_witness :
    (':' ∉ List.replicate 9964 ' ') ∧
    lookupA ".b1" (Stores.cbE ⟨[], [], [(".b1", noopE)], [], []⟩)
        = some noopE ∧
    ∃ r : StepRes,
      mainloopStep (fun _ => none) (fun _ => none)
          ("cb1e:.b1:10:20:110:220:50:80:65:a:1\n".data ++
            List.replicate 9964 ' ')
          ⟨[], [], [(".b1", noopE)], [], []⟩ = some r ∧
      r.log = [Invoked.ie noopE ⟨10, 20, 110, 220, 50, 80, 65, "a", 0⟩] ∧
      r.stopped = false ∧ r.kills = 0 :=
  ⟨fun hm => absurd (List.eq_of_mem_replicate hm) (by decide), rfl,
    cb1e_padded_chunk_mouse_button_zero (fun _ => none) (fun _ => none)
      (List.replicate 9964 ' ')
      (fun hm => absurd (List.eq_of_mem_replicate hm) (by decide))
      ⟨[], [], [(".b1", noopE)], [], []⟩ noopE rfl⟩
